import Mathlib

/-!
Shallow embedding of the document page-range engine and the tag-based
retention manager of this repository (src/server/config/cloudinary.js —
the cloudinary config, the cleanup job and the pdf processor modules —
src/server/middleware/rateLimiter.js routes, and the serverless route in
src/api/index.js), together with theorems checking the natural-language
specification against it.

Strings are modelled as `List Char`; JavaScript numbers that flow through
`parseInt` / `Number` in the relevant code paths are modelled as
`Option Int`, with `none` playing the role of `NaN`.
-/

namespace ImageTools

/-- Whitespace recognised by the model of JS `trim` / `parseInt`
(ASCII whitespace; the full JS set also has Unicode spaces, which none of
the claims exercise). -/
def isSpace (c : Char) : Bool :=
  c.toNat == 32 || c.toNat == 9 || c.toNat == 10 || c.toNat == 13 || c.toNat == 11 || c.toNat == 12

/-- Model of JS `String.prototype.trim` on a character list. -/
def trimChars (s : List Char) : List Char :=
  ((s.dropWhile isSpace).reverse.dropWhile isSpace).reverse

/-- One step of splitting: a separator character opens a fresh empty
field, any other character is prepended to the current first field. -/
def splitStep (sep c : Char) (acc : List (List Char)) : List (List Char) :=
  match acc with
  | [] => [[]]
  | h :: t => if c == sep then [] :: h :: t else (c :: h) :: t

/-- Model of JS `String.prototype.split(sep)` for a one-character
separator: `"".split(sep)` is `[""]`, separators at the ends produce empty
fields. -/
def splitOnChar (sep : Char) (l : List Char) : List (List Char) :=
  l.foldr (splitStep sep) [[]]

theorem splitStep_ne_nil (sep c : Char) (acc : List (List Char)) : splitStep sep c acc ≠ [] := by
  cases acc with
  | nil => simp [splitStep]
  | cons h t =>
    simp only [splitStep]
    split <;> simp

theorem foldr_splitStep_ne_nil (sep : Char) :
    ∀ (xs : List Char) (A : List Char) (R : List (List Char)),
      xs.foldr (splitStep sep) (A :: R) ≠ []
  | [], _, _ => by simp
  | c :: xs, A, R => by
    rw [List.foldr_cons]
    cases h : xs.foldr (splitStep sep) (A :: R) with
    | nil => exact absurd h (foldr_splitStep_ne_nil sep xs A R)
    | cons a t => exact splitStep_ne_nil sep c _

theorem splitOnChar_ne_nil (sep : Char) (l : List Char) : splitOnChar sep l ≠ [] :=
  foldr_splitStep_ne_nil sep l [] []

/-- Decimal digit test, by code point. -/
def isDigitCh (c : Char) : Bool := 48 ≤ c.toNat && c.toNat ≤ 57

/-- Value of a decimal digit string (leading zeros allowed). -/
def decValue (ds : List Char) : Nat :=
  ds.foldl (fun a c => a * 10 + (c.toNat - 48)) 0

/-- Hexadecimal digit test, by code point. -/
def isHexCh (c : Char) : Bool :=
  isDigitCh c || (97 ≤ c.toNat && c.toNat ≤ 102) || (65 ≤ c.toNat && c.toNat ≤ 70)

/-- Value of a hexadecimal digit. -/
def hexDigitVal (c : Char) : Nat :=
  if isDigitCh c then c.toNat - 48
  else if 97 ≤ c.toNat && c.toNat ≤ 102 then c.toNat - 87
  else c.toNat - 55

/-- Value of a hexadecimal digit string. -/
def hexValue (ds : List Char) : Nat :=
  ds.foldl (fun a c => a * 16 + hexDigitVal c) 0

/-- Unsigned part of JS `parseInt` with the default radix: a `0x`/`0X`
head switches to base 16, otherwise the longest decimal-digit prefix is
taken; no digits at all gives `NaN` (`none`). -/
def parseUnsigned (cs : List Char) : Option Nat :=
  match cs with
  | '0' :: x :: rest =>
    if x == 'x' || x == 'X' then
      let ds := rest.takeWhile isHexCh
      if ds.isEmpty then none else some (hexValue ds)
    else
      let ds := ('0' :: x :: rest).takeWhile isDigitCh
      if ds.isEmpty then none else some (decValue ds)
  | _ =>
    let ds := cs.takeWhile isDigitCh
    if ds.isEmpty then none else some (decValue ds)

/-- Model of JS `parseInt(s)` (default radix): leading whitespace is
skipped, an optional sign is read, then the longest digit prefix; `none`
is `NaN`. -/
def jsParseInt (cs : List Char) : Option Int :=
  match cs.dropWhile isSpace with
  | '-' :: rest => (parseUnsigned rest).map (fun n => -(n : Int))
  | '+' :: rest => (parseUnsigned rest).map (fun n => (n : Int))
  | other => (parseUnsigned other).map (fun n => (n : Int))

/-!
## PageRangeParser — `parsePageRange` (pdf processor module of
src/server/config/cloudinary.js, lines 239–258)
-/

/-- Model of the JS `Set`: insertion keeps first occurrences, in order. -/
def addSet (acc : List Nat) (x : Nat) : List Nat :=
  if x ∈ acc then acc else acc ++ [x]

/-- Indices added by the range loop
`for (let i = start; i <= end && i <= totalPages; i++) if (i >= 1) pages.add(i - 1)`:
the loop emits `i - 1` for every `i` in `[max start 1, min end totalPages]`,
in ascending order; a `NaN` bound (`none`) stops it before the first
iteration. -/
def rangeIndices (st en : Option Int) (tp : Nat) : List Nat :=
  match st, en with
  | some s, some e =>
    if max s 1 ≤ min e (tp : Int) then
      (List.range ((min e (tp : Int)).toNat + 1 - (max s 1).toNat)).map
        (fun k => (max s 1).toNat + k - 1)
    else []
  | _, _ => []

/-- Indices contributed by one comma-separated atom of `parsePageRange`:
a dash atom is split on `-`, its first two fields are trimmed and parsed
as integers and drive the range loop; any other atom is a single
`parseInt` with the bound check `1 <= n <= totalPages`. -/
def atomIndices (part : List Char) (tp : Nat) : List Nat :=
  if part.contains '-' then
    let comps := splitOnChar '-' part
    rangeIndices (jsParseInt (trimChars (comps.getD 0 [])))
      (jsParseInt (trimChars (comps.getD 1 []))) tp
  else
    match jsParseInt part with
    | some n => if 1 ≤ n ∧ n ≤ (tp : Int) then [(n - 1).toNat] else []
    | none => []

/-- The comma-separated, trimmed atoms of a page-range expression
(`pageString.split(',').map(s => s.trim())`). -/
def partsOf (expr : List Char) : List (List Char) :=
  (splitOnChar ',' expr).map trimChars

/-- Embedding of `parsePageRange(pageString, totalPages)`: every atom's
contributions are added to a `Set` in loop order, and the set's elements
are returned sorted ascending (`Array.from(pages).sort((a, b) => a - b)`). -/
def parsePageRange (expr : List Char) (tp : Nat) : List Nat :=
  List.insertionSort (· ≤ ·)
    (((partsOf expr).flatMap (fun part => atomIndices part tp)).foldl addSet [])

/-- Reference definition of spec section 4.1, written from the spec's
words: an atom selects a 1-based page `p` if it is a dash range whose two
parsed bounds enclose `p`, or a single parsed integer equal to `p`. -/
def atomSelects (part : List Char) (p : Nat) : Bool :=
  if part.contains '-' then
    let comps := splitOnChar '-' part
    match jsParseInt (trimChars (comps.getD 0 [])),
          jsParseInt (trimChars (comps.getD 1 [])) with
    | some s, some e => decide (s ≤ (p : Int) ∧ (p : Int) ≤ e)
    | _, _ => false
  else
    match jsParseInt part with
    | some n => decide ((p : Int) = n)
    | none => false

/-- Reference definition of spec section 4.1: the zero-based indices `k`
with `1 ≤ k + 1 ≤ totalPages` selected by some atom, duplicate-free and
ascending by construction. -/
def parsePageRangeSpec (expr : List Char) (tp : Nat) : List Nat :=
  (List.range tp).filter (fun k => (partsOf expr).any (fun part => atomSelects part (k + 1)))

/-!
### Helper lemmas about the parser
-/

theorem mem_addSet {acc : List Nat} {a x : Nat} : x ∈ addSet acc a ↔ x ∈ acc ∨ x = a := by
  by_cases h : a ∈ acc
  · simp only [addSet, if_pos h]
    constructor
    · exact Or.inl
    · rintro (hx | rfl)
      · exact hx
      · exact h
  · simp [addSet, if_neg h]

theorem mem_foldl_addSet (x : Nat) : ∀ (l acc : List Nat), x ∈ l.foldl addSet acc ↔ x ∈ acc ∨ x ∈ l
  | [], acc => by simp
  | a :: l, acc => by
    simp only [List.foldl_cons]
    rw [mem_foldl_addSet x l (addSet acc a), mem_addSet]
    simp only [List.mem_cons]
    tauto

theorem nodup_addSet {acc : List Nat} {a : Nat} (h : acc.Nodup) : (addSet acc a).Nodup := by
  unfold addSet
  split
  · exact h
  · next hna =>
    refine List.Nodup.append h (List.nodup_singleton a) ?_
    intro x hx hxa
    rw [List.mem_singleton] at hxa
    exact hna (hxa ▸ hx)

theorem nodup_foldl_addSet : ∀ (l acc : List Nat), acc.Nodup → (l.foldl addSet acc).Nodup
  | [], _, h => h
  | a :: l, acc, h => by
    simp only [List.foldl_cons]
    exact nodup_foldl_addSet l _ (nodup_addSet h)

theorem rangeIndices_none_left (en : Option Int) (tp : Nat) : rangeIndices none en tp = [] := by
  cases en <;> rfl

theorem rangeIndices_none_right (st : Option Int) (tp : Nat) : rangeIndices st none tp = [] := by
  cases st <;> rfl

theorem mem_rangeIndices_some {s e : Int} {tp x : Nat} :
    x ∈ rangeIndices (some s) (some e) tp ↔ s ≤ (x : Int) + 1 ∧ (x : Int) + 1 ≤ e ∧ x < tp := by
  simp only [rangeIndices]
  split
  · next hle =>
    simp only [List.mem_map, List.mem_range]
    constructor
    · rintro ⟨k, hk, rfl⟩
      refine ⟨?_, ?_, ?_⟩ <;> omega
    · rintro ⟨h1, h2, h3⟩
      exact ⟨x + 1 - (max s 1).toNat, by omega, by omega⟩
  · next hle =>
    simp only [List.not_mem_nil, false_iff]
    rintro ⟨h1, h2, h3⟩
    omega

theorem mem_atomIndices {part : List Char} {tp x : Nat} :
    x ∈ atomIndices part tp ↔ x < tp ∧ atomSelects part (x + 1) = true := by
  by_cases hd : part.contains '-'
  · simp only [atomIndices, atomSelects, if_pos hd]
    cases h0 : jsParseInt (trimChars ((splitOnChar '-' part).getD 0 [])) with
    | none => simp [rangeIndices_none_left]
    | some s =>
      cases h1 : jsParseInt (trimChars ((splitOnChar '-' part).getD 1 [])) with
      | none => simp [rangeIndices_none_right]
      | some e =>
        rw [mem_rangeIndices_some]
        simp only [decide_eq_true_eq]
        push_cast
        constructor
        · rintro ⟨ha, hb, hc⟩
          exact ⟨hc, by omega⟩
        · rintro ⟨hc, ha, hb⟩
          exact ⟨by omega, by omega, hc⟩
  · simp only [atomIndices, atomSelects, if_neg hd]
    cases h0 : jsParseInt part with
    | none => simp
    | some n =>
      simp only [decide_eq_true_eq]
      split
      · next hcond =>
        simp only [List.mem_singleton]
        push_cast
        constructor
        · rintro rfl
          refine ⟨by omega, by omega⟩
        · rintro ⟨hc, he⟩
          omega
      · next hcond =>
        simp only [List.not_mem_nil, false_iff]
        push_cast
        rintro ⟨hc, he⟩
        exact hcond ⟨by omega, by omega⟩

theorem mem_parsePageRange {expr : List Char} {tp x : Nat} :
    x ∈ parsePageRange expr tp ↔ ∃ part ∈ partsOf expr, x ∈ atomIndices part tp := by
  unfold parsePageRange
  rw [(List.perm_insertionSort _ _).mem_iff, mem_foldl_addSet]
  simp [List.mem_flatMap]

theorem sorted_parsePageRange (expr : List Char) (tp : Nat) :
    (parsePageRange expr tp).Sorted (· < ·) := by
  have hs : (parsePageRange expr tp).Sorted (· ≤ ·) := List.sorted_insertionSort _ _
  have hn : (parsePageRange expr tp).Nodup := by
    unfold parsePageRange
    exact (List.perm_insertionSort _ _).nodup_iff.mpr (nodup_foldl_addSet _ _ List.nodup_nil)
  exact hs.lt_of_le hn

theorem sorted_parsePageRangeSpec (expr : List Char) (tp : Nat) :
    (parsePageRangeSpec expr tp).Sorted (· < ·) :=
  (List.pairwise_lt_range tp).filter _

theorem eq_of_sortedLt_of_mem_iff :
    ∀ {l₁ l₂ : List Nat}, l₁.Sorted (· < ·) → l₂.Sorted (· < ·) →
      (∀ x, x ∈ l₁ ↔ x ∈ l₂) → l₁ = l₂
  | [], [], _, _, _ => rfl
  | [], b :: l₂, _, _, h => absurd ((h b).mpr (List.mem_cons_self b l₂)) (List.not_mem_nil b)
  | a :: l₁, [], _, _, h => absurd ((h a).mp (List.mem_cons_self a l₁)) (List.not_mem_nil a)
  | a :: l₁, b :: l₂, h₁, h₂, h => by
    have ha₁ : ∀ y ∈ l₁, a < y := List.rel_of_sorted_cons h₁
    have hb₂ : ∀ y ∈ l₂, b < y := List.rel_of_sorted_cons h₂
    have hab : a = b := by
      rcases List.mem_cons.mp ((h a).mp (List.mem_cons_self a l₁)) with h' | h'
      · exact h'
      · rcases List.mem_cons.mp ((h b).mpr (List.mem_cons_self b l₂)) with h'' | h''
        · exact h''.symm
        · have := hb₂ a h'
          have := ha₁ b h''
          omega
    subst hab
    have htail : ∀ x, x ∈ l₁ ↔ x ∈ l₂ := by
      intro x
      constructor
      · intro hx
        rcases List.mem_cons.mp ((h x).mp (List.mem_cons_of_mem a hx)) with rfl | hx₂
        · exact absurd (ha₁ x hx) (lt_irrefl x)
        · exact hx₂
      · intro hx
        rcases List.mem_cons.mp ((h x).mpr (List.mem_cons_of_mem a hx)) with rfl | hx₁
        · exact absurd (hb₂ x hx) (lt_irrefl x)
        · exact hx₁
    rw [eq_of_sortedLt_of_mem_iff h₁.of_cons h₂.of_cons htail]

/-- Central parser lemma: the embedded `parsePageRange` coincides with the
reference definition of spec section 4.1. -/
theorem parsePageRange_eq_spec (expr : List Char) (tp : Nat) :
    parsePageRange expr tp = parsePageRangeSpec expr tp := by
  refine eq_of_sortedLt_of_mem_iff (sorted_parsePageRange expr tp)
    (sorted_parsePageRangeSpec expr tp) ?_
  intro x
  rw [mem_parsePageRange]
  unfold parsePageRangeSpec
  rw [List.mem_filter, List.mem_range, List.any_eq_true]
  constructor
  · rintro ⟨part, hp, hx⟩
    obtain ⟨hlt, hsel⟩ := mem_atomIndices.mp hx
    exact ⟨hlt, part, hp, hsel⟩
  · rintro ⟨hlt, part, hp, hsel⟩
    exact ⟨part, hp, mem_atomIndices.mpr ⟨hlt, hsel⟩⟩

theorem parsePageRange_lt {expr : List Char} {tp x : Nat} (h : x ∈ parsePageRange expr tp) :
    x < tp := by
  rcases mem_parsePageRange.mp h with ⟨part, _, hx⟩
  exact (mem_atomIndices.mp hx).1

/-!
## PdfStructuralEngine (pdf processor module of src/server/config/cloudinary.js)

A loaded document is a list of its pages; `PDFDocument.load` on a byte
buffer is an external call that either yields a document or throws, so a
buffer is represented by its load outcome `Except LoadError (List α)`.
-/

/-- The one way loading can fail: the buffer is not a valid document. -/
inductive LoadError where
  | MalformedDocument
deriving DecidableEq

/-- Embedding of `mergePdfs(pdfBuffers)` (lines 219–230): each buffer is
loaded in input order and all of its pages are appended to the
accumulating output; the first failing load throws out of the loop. -/
def mergePdfs {α : Type} (pdfBuffers : List (Except LoadError (List α))) :
    Except LoadError (List α) :=
  pdfBuffers.foldlM (fun acc b => b.map (fun pages => acc ++ pages)) []

/-- One entry of `splitPdf`'s result: the new document's pages, the group
expression it came from, and its page count. -/
structure SplitResult (α : Type) where
  buffer : List α
  pages : List Char
  pageCount : Nat
deriving DecidableEq

/-- The semicolon groups of a split expression:
`pageRanges.split(';').map(s => s.trim()).filter(s => s)` (line 273). -/
def splitGroups (expr : List Char) : List (List Char) :=
  ((splitOnChar ';' expr).map trimChars).filter (fun s => !s.isEmpty)

/-- Embedding of `splitPdf(pdfBuffer, pageRanges)` (lines 266–293) on a
loaded source document: per group, the parsed index set; empty groups are
skipped (`continue`); `copyPages` fetches the pages at those indices
(always in bounds, see `parsePageRange_lt`). -/
def splitPdf {α : Type} (doc : List α) (pageRanges : List Char) : List (SplitResult α) :=
  (splitGroups pageRanges).filterMap (fun group =>
    let pageIndices := parsePageRange group doc.length
    if pageIndices.isEmpty then none
    else some ⟨pageIndices.filterMap (fun i => doc.get? i), group, pageIndices.length⟩)

/-- Outcome of the POST /api/pdf/split route after `splitPdf`
(src/server/middleware/rateLimiter.js lines 282–286): an empty result list
is answered with the `NoValidPages` error. -/
def splitRoute {α : Type} (doc : List α) (pageRanges : List Char) :
    Except String (List (SplitResult α)) :=
  let splitResults := splitPdf doc pageRanges
  if splitResults.isEmpty then .error "No valid pages specified" else .ok splitResults

/-- The filtered zero-based order used by `reorderPdfPages`:
`newOrder.filter(n => n >= 1 && n <= totalPages).map(n => n - 1)` (lines 306–308). -/
def validOrderOf (tp : Nat) (newOrder : List Int) : List Nat :=
  (newOrder.filter (fun n => decide (1 ≤ n ∧ n ≤ (tp : Int)))).map (fun n => (n - 1).toNat)

/-- Embedding of `reorderPdfPages(pdfBuffer, newOrder)` (lines 301–320)
on a loaded document: out-of-range entries are dropped; an empty filtered
order throws `Invalid page order specified`; otherwise pages are copied
in exactly the filtered sequence. -/
def reorderPdfPages {α : Type} (doc : List α) (newOrder : List Int) :
    Except String (List α) :=
  let validOrder := validOrderOf doc.length newOrder
  if validOrder.isEmpty then .error "Invalid page order specified"
  else .ok (validOrder.filterMap (fun i => doc.get? i))

/-!
## Retention manager (cloudinary config + cleanup job modules of
src/server/config/cloudinary.js)
-/

/-- A tagged object of the external store, as the sweep sees it. -/
structure CloudResource where
  public_id : Nat
  created_at : Int
deriving DecidableEq

/-- Embedding of `cloudinary.api.resources_by_tag(tag, { max_results, resource_type })`:
the provider answers one page of at most `maxResults` of the store's
tagged objects. -/
def resources_by_tag (store : List CloudResource) (maxResults : Nat) : List CloudResource :=
  store.take maxResults

/-- Embedding of `getResourcesByTag(tag, resourceType)` (lines 87–92): a
single `resources_by_tag` request with `max_results: 500`; there is no
cursor loop over further provider pages. -/
def getResourcesByTag (store : List CloudResource) : List CloudResource :=
  resources_by_tag store 500

/-- Embedding of `isExpired(createdAt)` (lines 114–118) with the ambient
`Date.now()` and `FILE_TTL_HOURS * 60 * 60 * 1000` passed explicitly:
`now - creationTime > ttlMs`. -/
def isExpired (now createdAt ttlMs : Int) : Bool :=
  decide (now - createdAt > ttlMs)

/-- Observable outcome of one `cleanupResourceType` run: the returned
`deletedCount`, and the `deleteResource` calls it issued, in order. -/
structure SweepKindResult where
  deletedCount : Nat
  attempts : List CloudResource
deriving DecidableEq

/-- Embedding of `cleanupResourceType(resourceType)` (lines 125–151).
The listing call either throws (`.error`, caught by the outer catch which
returns the current `deletedCount`, still 0) or yields the resource list;
expired resources are each attempted with `deleteResource`, whose own
success or failure is the oracle `deleteOk`; a failed deletion is caught,
logged and skipped, the loop continues. -/
def cleanupResourceType (listing : Except Unit (List CloudResource))
    (deleteOk : CloudResource → Bool) (now ttlMs : Int) : SweepKindResult :=
  match listing with
  | .error _ => ⟨0, []⟩
  | .ok resources =>
    if resources.isEmpty then ⟨0, []⟩
    else
      let expiredResources := resources.filter (fun r => isExpired now r.created_at ttlMs)
      expiredResources.foldl
        (fun acc r =>
          ⟨if deleteOk r then acc.deletedCount + 1 else acc.deletedCount, acc.attempts ++ [r]⟩)
        ⟨0, []⟩

/-- What `cleanupExpiredFiles` (lines 156–174) reports on completion:
total deleted and the per-kind breakdown (the log line
`Deleted ${totalDeleted} files (${imagesDeleted} images, ${rawDeleted} raw)`). -/
structure SweepReport where
  totalDeleted : Nat
  imagesDeleted : Nat
  rawDeleted : Nat
deriving DecidableEq

/-- Embedding of `cleanupExpiredFiles()` (lines 156–174): the image kind
is swept, then the raw kind, each through `cleanupResourceType`; the
function returns its report unconditionally (its callees catch their own
failures, so the outer try/catch never fires). -/
def cleanupExpiredFiles (imageListing rawListing : Except Unit (List CloudResource))
    (deleteOk : CloudResource → Bool) (now ttlMs : Int) : SweepReport :=
  let imagesDeleted := (cleanupResourceType imageListing deleteOk now ttlMs).deletedCount
  let rawDeleted := (cleanupResourceType rawListing deleteOk now ttlMs).deletedCount
  ⟨imagesDeleted + rawDeleted, imagesDeleted, rawDeleted⟩

/-- Scheduling state of the cleanup job: how many `cleanupExpiredFiles`
invocations are currently in flight. -/
structure CleanupJobState where
  activeSweeps : Nat
deriving DecidableEq

/-- A cron tick under `startCleanupJob` (lines 179–190): the job is
registered as `cron.schedule(cronExpression, cleanupExpiredFiles, ...)`,
i.e. the async sweep function itself is the callback, and neither it nor
the registration consults any in-progress flag — every tick starts a new
sweep, whatever is already running. -/
def cronTick (s : CleanupJobState) : CleanupJobState :=
  ⟨s.activeSweeps + 1⟩

/-- Completion of one sweep: its invocation leaves the in-flight set. -/
def sweepDone (s : CleanupJobState) : CleanupJobState :=
  ⟨s.activeSweeps - 1⟩

/-!
## Serverless split route (src/api/index.js, lines 268–310)
-/

/-- Model of JS `Number(s)` on the route's range bounds, restricted to
integral numerals: a trimmed empty string is `0`, an optionally signed
digit string is its value, and anything else is `NaN` (`none`).
(Fractional, exponent and hex literals, which `Number` also accepts,
produce values this route would pass to `copyPages` as invalid page
indices; no claim below exercises them.) -/
def jsNumber (cs : List Char) : Option Int :=
  let t := trimChars cs
  if t.isEmpty then some 0
  else
    match t with
    | '-' :: rest =>
      if rest.isEmpty || !rest.all isDigitCh then none else some (-(decValue rest : Int))
    | '+' :: rest =>
      if rest.isEmpty || !rest.all isDigitCh then none else some (decValue rest : Int)
    | _ => if !t.all isDigitCh then none else some (decValue t : Int)

/-- The page numbers one semicolon group of the serverless split route
pushes (lines 276–284): a group containing `-` is split on `-` and its
first two fields drive `for (let i = start; i <= end; i++) pageNums.push(i - 1)`
with `Number`-parsed bounds and no bound check against the document;
otherwise every comma field contributes `parseInt(p) - 1`. `none` entries
are `NaN` pushes. -/
def serverlessGroupNums (range : List Char) : List (Option Int) :=
  if range.contains '-' then
    let comps := splitOnChar '-' range
    match jsNumber (comps.getD 0 []), jsNumber (comps.getD 1 []) with
    | some s, some e =>
      if s ≤ e then (List.range (e + 1 - s).toNat).map (fun k => some (s + k - 1)) else []
    | _, _ => []
  else
    (splitOnChar ',' range).map (fun p => (jsParseInt p).map (fun n => n - 1))

/-- Model of pdf-lib `copyPages(sourcePdf, pageNums)`: fetching the page
at each index, throwing (`none`) on a `NaN`, negative or out-of-range
index. -/
def copyPagesJs {α : Type} (doc : List α) (nums : List (Option Int)) : Option (List α) :=
  nums.mapM (fun o => o.bind (fun i => if 0 ≤ i then doc.get? i.toNat else none))

/-- Embedding of the POST /api/pdf/split serverless route's page
selection (lines 268–310) on a loaded document: groups are the trimmed
semicolon fields (empty ones are NOT filtered out here), each group is
copied unconditionally (empty index lists give empty documents), and any
`copyPages` throw fails the whole call (`none`). -/
def serverlessSplit {α : Type} (doc : List α) (pages : List Char) : Option (List (List α)) :=
  ((splitOnChar ';' pages).map trimChars).mapM
    (fun range => copyPagesJs doc (serverlessGroupNums range))

/-!
### Helper lemmas about splitting strings, the engine and the sweeper
-/

theorem foldr_splitStep_append (sep : Char) :
    ∀ (xs : List Char) (A : List Char) (R : List (List Char)),
      xs.foldr (splitStep sep) (A :: R) = xs.foldr (splitStep sep) [A] ++ R
  | [], A, R => rfl
  | c :: xs, A, R => by
    rw [List.foldr_cons, List.foldr_cons, foldr_splitStep_append sep xs A R]
    cases h : xs.foldr (splitStep sep) [A] with
    | nil => exact absurd h (foldr_splitStep_ne_nil sep xs A [])
    | cons a t =>
      simp only [splitStep, List.cons_append]
      split <;> simp

theorem splitOnChar_append (sep : Char) (xs ys : List Char) :
    splitOnChar sep (xs ++ sep :: ys) = splitOnChar sep xs ++ splitOnChar sep ys := by
  unfold splitOnChar
  rw [List.foldr_append, List.foldr_cons]
  cases h : ys.foldr (splitStep sep) [[]] with
  | nil => exact absurd h (foldr_splitStep_ne_nil sep ys [] [])
  | cons a t =>
    simp only [splitStep, beq_self_eq_true, if_true]
    exact foldr_splitStep_append sep xs [] (a :: t)

theorem splitOnChar_of_not_contains (sep : Char) :
    ∀ {l : List Char}, l.contains sep = false → splitOnChar sep l = [l]
  | [], _ => rfl
  | c :: rest, h => by
    rw [List.contains_cons] at h
    simp only [Bool.or_eq_false_iff] at h
    obtain ⟨h1, h2⟩ := h
    show splitStep sep c (splitOnChar sep rest) = [c :: rest]
    rw [splitOnChar_of_not_contains sep h2]
    have h1' : (c == sep) = false := by
      rw [beq_eq_false_iff_ne] at h1 ⊢
      exact fun hc => h1 hc.symm
    simp [splitStep, h1']

theorem length_filterMap_get? {α : Type} (doc : List α) :
    ∀ (idxs : List Nat), (∀ i ∈ idxs, i < doc.length) →
      (idxs.filterMap (fun i => doc.get? i)).length = idxs.length
  | [], _ => rfl
  | i :: t, h => by
    have hi : i < doc.length := h i (List.mem_cons_self i t)
    rw [List.filterMap_cons, List.get?_eq_get hi]
    simp only [List.length_cons]
    rw [length_filterMap_get? doc t (fun j hj => h j (List.mem_cons_of_mem i hj))]

theorem validOrderOf_lt {tp : Nat} {newOrder : List Int} :
    ∀ i ∈ validOrderOf tp newOrder, i < tp := by
  intro i hi
  unfold validOrderOf at hi
  rw [List.mem_map] at hi
  obtain ⟨n, hn, rfl⟩ := hi
  rw [List.mem_filter, decide_eq_true_eq] at hn
  omega

theorem splitPdf_eq_nil_iff {α : Type} (doc : List α) (expr : List Char) :
    splitPdf doc expr = [] ↔ ∀ g ∈ splitGroups expr, parsePageRange g doc.length = [] := by
  unfold splitPdf
  rw [List.filterMap_eq_nil_iff]
  constructor
  · intro h g hg
    have h' := h g hg
    dsimp only at h'
    by_cases he : (parsePageRange g doc.length).isEmpty
    · exact List.isEmpty_iff.mp he
    · rw [if_neg he] at h'
      exact absurd h' (by simp)
  · intro h g hg
    dsimp only
    rw [if_pos (by rw [h g hg]; rfl)]

theorem mergePdfs_foldAux_ok {α : Type} : ∀ (docs : List (List α)) (acc : List α),
    (docs.map Except.ok).foldlM
        (fun acc (b : Except LoadError (List α)) => b.map (fun pages => acc ++ pages)) acc
      = .ok (acc ++ docs.flatten)
  | [], acc => by
    show (pure acc : Except LoadError (List α)) = .ok (acc ++ [].flatten)
    simp only [List.flatten_nil, List.append_nil]
    rfl
  | d :: docs, acc => by
    rw [List.map_cons, List.foldlM_cons]
    show (List.foldlM _ (acc ++ d) (docs.map Except.ok) : Except LoadError (List α)) = _
    rw [mergePdfs_foldAux_ok docs (acc ++ d)]
    simp

theorem mergePdfs_foldAux_err {α : Type} :
    ∀ (bufs : List (Except LoadError (List α))) (acc : List α),
      (bufs.foldlM (fun acc b => b.map (fun pages => acc ++ pages)) acc
          = .error .MalformedDocument
        ↔ Except.error LoadError.MalformedDocument ∈ bufs)
  | [], acc => by
    show (pure acc : Except LoadError (List α)) = .error .MalformedDocument ↔ _
    constructor
    · intro h
      exact absurd h (by simp [pure, Except.pure])
    · intro h
      exact absurd h (List.not_mem_nil _)
  | b :: bufs, acc => by
    rw [List.foldlM_cons]
    cases b with
    | error e =>
      cases e
      show (Except.error LoadError.MalformedDocument = Except.error LoadError.MalformedDocument) ↔ _
      simp
    | ok d =>
      show (List.foldlM _ (acc ++ d) bufs : Except LoadError (List α)) = _ ↔ _
      rw [mergePdfs_foldAux_err bufs (acc ++ d)]
      simp

theorem cleanupResourceType_ok (resources : List CloudResource)
    (deleteOk : CloudResource → Bool) (now ttlMs : Int) :
    cleanupResourceType (.ok resources) deleteOk now ttlMs =
      ⟨((resources.filter (fun r => isExpired now r.created_at ttlMs)).filter deleteOk).length,
        resources.filter (fun r => isExpired now r.created_at ttlMs)⟩ := by
  have fold : ∀ (l : List CloudResource) (acc : SweepKindResult),
      l.foldl (fun acc r =>
          (⟨if deleteOk r then acc.deletedCount + 1 else acc.deletedCount,
            acc.attempts ++ [r]⟩ : SweepKindResult)) acc
        = ⟨acc.deletedCount + (l.filter deleteOk).length, acc.attempts ++ l⟩ := by
    intro l
    induction l with
    | nil => intro acc; simp
    | cons r t ih =>
      intro acc
      rw [List.foldl_cons, ih, List.filter_cons]
      cases hr : deleteOk r
      all_goals simp [hr, SweepKindResult.mk.injEq]
      all_goals omega
  unfold cleanupResourceType
  dsimp only
  by_cases he : resources.isEmpty
  · rw [if_pos he]
    rw [List.isEmpty_iff.mp he]
    simp
  · rw [if_neg he, fold]
    simp

/-!
## Claim theorems
-/

/-- C1: for every expression string and every `totalPages ≥ 0`,
`parsePageRange` equals the reference definition of spec section 4.1 —
split on commas, dash atoms contribute every integer of `[start, end]`
satisfying `1 ≤ i ≤ totalPages` zero-based (no swap for descending
ranges, truncation at `totalPages`, per-index exclusion below 1), other
atoms are single integers under the same bound check, and the result is
duplicate-free and ascending — and `parse("1-3,5,7-10", 10) = [0,1,2,4,6,7,8,9]`. -/
theorem parsePageRange_matches_spec :
    (∀ (expr : List Char) (tp : Nat), parsePageRange expr tp = parsePageRangeSpec expr tp) ∧
    parsePageRange ("1-3,5,7-10".toList) 10 = [0, 1, 2, 4, 6, 7, 8, 9] :=
  ⟨parsePageRange_eq_spec, by decide⟩

/-- C7: `parsePageRange` never raises — appending a malformed or
out-of-bounds atom (one contributing no index) leaves the parse of the
rest unchanged rather than failing it, and a parse is empty only when
every atom contributes nothing. -/
theorem parsePageRange_skips_malformed_atoms :
    (∀ (expr bad : List Char) (tp : Nat), bad.contains ',' = false →
      atomIndices (trimChars bad) tp = [] →
      parsePageRange (expr ++ ',' :: bad) tp = parsePageRange expr tp) ∧
    (∀ (expr : List Char) (tp : Nat), parsePageRange expr tp = [] →
      ∀ part ∈ partsOf expr, atomIndices part tp = []) := by
  constructor
  · intro expr bad tp hb hbad
    have hparts : partsOf (expr ++ ',' :: bad) = partsOf expr ++ [trimChars bad] := by
      unfold partsOf
      rw [splitOnChar_append, splitOnChar_of_not_contains ',' hb, List.map_append]
      rfl
    rw [parsePageRange_eq_spec, parsePageRange_eq_spec]
    unfold parsePageRangeSpec
    rw [hparts]
    apply List.filter_congr
    intro k hk
    rw [List.mem_range] at hk
    rw [List.any_append]
    have hsel : atomSelects (trimChars bad) (k + 1) = false := by
      by_contra hcon
      have hcon' : atomSelects (trimChars bad) (k + 1) = true := by
        simpa using hcon
      have hmem : k ∈ atomIndices (trimChars bad) tp := mem_atomIndices.mpr ⟨hk, hcon'⟩
      rw [hbad] at hmem
      exact absurd hmem (List.not_mem_nil k)
    simp [hsel]
  · intro expr tp h part hpart
    by_contra hne
    obtain ⟨x, hx⟩ := List.exists_mem_of_ne_nil _ hne
    have : x ∈ parsePageRange expr tp := mem_parsePageRange.mpr ⟨part, hpart, hx⟩
    rw [h] at this
    exact absurd this (List.not_mem_nil x)

/-- C7 witness: appending the malformed atom `abc` to `1-2` does not
change the parse. -/
theorem parsePageRange_skips_malformed_atoms_witness :
    parsePageRange ("1-2".toList ++ ',' :: "abc".toList) 5 = parsePageRange ("1-2".toList) 5 :=
  parsePageRange_skips_malformed_atoms.1 ("1-2".toList) ("abc".toList) 5 (by decide) (by decide)

/-- C2: each semicolon group's page-index set is computed independently;
groups resolving to an empty set are silently omitted; each kept group
yields one document with exactly that group's pages in ascending index
order and its `pageCount`; and the split route fails with `NoValidPages`
iff every group resolves to an empty set (e.g. groups `["99"]` on a
5-page document give zero outputs and the error). -/
theorem splitPdf_empty_groups_omitted_noValidPages :
    (∀ (α : Type) (doc : List α) (expr : List Char),
      (splitRoute doc expr = .error "No valid pages specified" ↔
        ∀ g ∈ splitGroups expr, parsePageRange g doc.length = []) ∧
      (∀ r ∈ splitPdf doc expr,
        ∃ g ∈ splitGroups expr,
          parsePageRange g doc.length ≠ [] ∧
          r.pages = g ∧
          r.buffer = (parsePageRange g doc.length).filterMap (fun i => doc.get? i) ∧
          r.pageCount = (parsePageRange g doc.length).length ∧
          r.buffer.length = r.pageCount ∧
          (parsePageRange g doc.length).Sorted (· < ·)) ∧
      (∀ g ∈ splitGroups expr, parsePageRange g doc.length ≠ [] →
        (⟨(parsePageRange g doc.length).filterMap (fun i => doc.get? i), g,
          (parsePageRange g doc.length).length⟩ : SplitResult α) ∈ splitPdf doc expr)) ∧
    splitPdf ([10, 20, 30, 40, 50] : List Nat) ("99".toList) = [] ∧
    splitRoute ([10, 20, 30, 40, 50] : List Nat) ("99".toList) =
      .error "No valid pages specified" := by
  refine ⟨?_, by decide, rfl⟩
  intro α doc expr
  have hroute : splitRoute doc expr = .error "No valid pages specified" ↔
      splitPdf doc expr = [] := by
    unfold splitRoute
    dsimp only
    by_cases he : (splitPdf doc expr).isEmpty
    · rw [if_pos he]
      simp [List.isEmpty_iff.mp he]
    · rw [if_neg he]
      constructor
      · intro h
        exact absurd h (by simp)
      · intro h
        rw [List.isEmpty_iff] at he
        exact absurd h he
  refine ⟨hroute.trans (splitPdf_eq_nil_iff doc expr), ?_, ?_⟩
  · intro r hr
    unfold splitPdf at hr
    rw [List.mem_filterMap] at hr
    obtain ⟨g, hg, hfg⟩ := hr
    dsimp only at hfg
    by_cases he : (parsePageRange g doc.length).isEmpty
    · rw [if_pos he] at hfg
      exact absurd hfg (by simp)
    · rw [if_neg he] at hfg
      have hne : parsePageRange g doc.length ≠ [] := by
        intro hnil
        exact he (by simp [hnil])
      obtain rfl : (⟨(parsePageRange g doc.length).filterMap (fun i => doc.get? i), g,
          (parsePageRange g doc.length).length⟩ : SplitResult α) = r := by
        exact Option.some.inj hfg
      refine ⟨g, hg, hne, rfl, rfl, rfl, ?_, sorted_parsePageRange g doc.length⟩
      exact length_filterMap_get? doc _ (fun i hi => parsePageRange_lt hi)
  · intro g hg hne
    unfold splitPdf
    rw [List.mem_filterMap]
    refine ⟨g, hg, ?_⟩
    dsimp only
    rw [if_neg (by simpa [List.isEmpty_iff] using hne)]

/-- C2 witness: on a 5-page document with the single group `99`, the
route fails with the `NoValidPages` error. -/
theorem splitPdf_empty_groups_omitted_noValidPages_witness :
    splitRoute ([10, 20, 30, 40, 50] : List Nat) ("99".toList) =
      .error "No valid pages specified" :=
  (splitPdf_empty_groups_omitted_noValidPages.1 Nat [10, 20, 30, 40, 50]
    ("99".toList)).1.mpr (by decide)

/-- C3: `reorderPdfPages` drops out-of-range entries non-fatally, copies
pages in exactly the caller-given filtered sequence (duplicates and
permutations honored, never re-sorted), and fails with
`InvalidPageOrder` iff the filtered sequence is empty; e.g.
`reorder([10,20,30,40], [3,1,2,4]) = [30,10,20,40]`. -/
theorem reorderPdfPages_honors_caller_order :
    (∀ (α : Type) (doc : List α) (newOrder : List Int),
      (reorderPdfPages doc newOrder = .error "Invalid page order specified" ↔
        validOrderOf doc.length newOrder = []) ∧
      (validOrderOf doc.length newOrder ≠ [] →
        reorderPdfPages doc newOrder =
          .ok ((validOrderOf doc.length newOrder).filterMap (fun i => doc.get? i))) ∧
      ((validOrderOf doc.length newOrder).filterMap (fun i => doc.get? i)).length =
        (validOrderOf doc.length newOrder).length) ∧
    reorderPdfPages ([10, 20, 30, 40] : List Nat) [3, 1, 2, 4] = .ok [30, 10, 20, 40] ∧
    reorderPdfPages ([10, 20] : List Nat) [2, 2] = .ok [20, 20] ∧
    reorderPdfPages ([10, 20, 30, 40] : List Nat) [9, 0] =
      .error "Invalid page order specified" := by
  refine ⟨?_, rfl, rfl, rfl⟩
  intro α doc newOrder
  refine ⟨?_, ?_, length_filterMap_get? doc _ (fun i hi => validOrderOf_lt i hi)⟩
  · unfold reorderPdfPages
    dsimp only
    by_cases he : (validOrderOf doc.length newOrder).isEmpty
    · rw [if_pos he]
      simp [List.isEmpty_iff.mp he]
    · rw [if_neg he]
      constructor
      · intro h
        exact absurd h (by simp)
      · intro h
        rw [List.isEmpty_iff] at he
        exact absurd h he
  · intro hne
    unfold reorderPdfPages
    dsimp only
    rw [if_neg (by simpa [List.isEmpty_iff] using hne)]

/-- C3 witness: the caller order `[3,1,2,4]` on a 4-page document is
reproduced exactly. -/
theorem reorderPdfPages_honors_caller_order_witness :
    reorderPdfPages ([10, 20, 30, 40] : List Nat) [3, 1, 2, 4] =
      .ok ((validOrderOf 4 [3, 1, 2, 4]).filterMap
        (fun i => ([10, 20, 30, 40] : List Nat).get? i)) :=
  (reorderPdfPages_honors_caller_order.1 Nat [10, 20, 30, 40] [3, 1, 2, 4]).2.1 (by decide)

/-- C4: `mergePdfs` concatenates the pages of its inputs in the exact
input order with no reordering or filtering (the output page count is the
sum of the inputs'), and it fails with `MalformedDocument` exactly when
some input buffer does not load as a valid document. -/
theorem mergePdfs_concatenates_in_order :
    (∀ (α : Type) (docs : List (List α)),
      mergePdfs (docs.map Except.ok) = .ok docs.flatten ∧
      docs.flatten.length = (docs.map List.length).sum) ∧
    (∀ (α : Type) (bufs : List (Except LoadError (List α))),
      mergePdfs bufs = .error .MalformedDocument ↔
        Except.error LoadError.MalformedDocument ∈ bufs) := by
  constructor
  · intro α docs
    constructor
    · unfold mergePdfs
      rw [mergePdfs_foldAux_ok docs []]
      simp
    · simp [List.length_flatten]
  · intro α bufs
    unfold mergePdfs
    exact mergePdfs_foldAux_err bufs []

/-- C4 witness: a malformed buffer in second position fails the merge
with `MalformedDocument`. -/
theorem mergePdfs_concatenates_in_order_witness :
    mergePdfs ([.ok [1, 2], .error .MalformedDocument, .ok [3]] :
        List (Except LoadError (List Nat))) = .error .MalformedDocument :=
  (mergePdfs_concatenates_in_order.2 Nat
    [.ok [1, 2], .error .MalformedDocument, .ok [3]]).mpr (by simp)

/-- C5 counterexample: a cron tick arriving while one sweep is already in
flight is not dropped — the state does not remain as it was, a second
sweep starts. -/
theorem cronTick_during_sweep_not_noop :
    cronTick ⟨1⟩ = ⟨2⟩ ∧ cronTick ⟨1⟩ ≠ ⟨1⟩ := by
  constructor
  · rfl
  · intro h
    exact absurd (congrArg CleanupJobState.activeSweeps h) (by decide)

/-- C5 amended: every cron tick unconditionally starts a new sweep —
`startCleanupJob` installs `cleanupExpiredFiles` directly as the cron
callback with no Idle/Sweeping guard, so ticks arriving during a sweep
produce overlapping sweeps instead of being dropped. -/
theorem cronTick_always_starts_sweep (s : CleanupJobState) :
    (cronTick s).activeSweeps = s.activeSweeps + 1 := rfl

/-- C6: per-kind, the sweep's deleted count is exactly the number of
expired objects whose deletion succeeds and every expired object is
attempted regardless of earlier failures; a single deletion failure only
loses that object (the others are still deleted); and a listing failure
for one resource kind contributes zero for that kind while the other
kind is still swept — the sweep function returns a report in every case. -/
theorem sweep_failures_are_local :
    (∀ (resources : List CloudResource) (deleteOk : CloudResource → Bool) (now ttlMs : Int),
      cleanupResourceType (.ok resources) deleteOk now ttlMs =
        ⟨((resources.filter (fun r => isExpired now r.created_at ttlMs)).filter deleteOk).length,
          resources.filter (fun r => isExpired now r.created_at ttlMs)⟩) ∧
    (∀ (pre post : List CloudResource) (r : CloudResource) (deleteOk : CloudResource → Bool)
        (now ttlMs : Int), deleteOk r = false →
      (cleanupResourceType (.ok (pre ++ r :: post)) deleteOk now ttlMs).deletedCount =
        (cleanupResourceType (.ok (pre ++ post)) deleteOk now ttlMs).deletedCount) ∧
    (∀ (rawListing : Except Unit (List CloudResource)) (deleteOk : CloudResource → Bool)
        (now ttlMs : Int),
      cleanupExpiredFiles (.error ()) rawListing deleteOk now ttlMs =
        ⟨(cleanupResourceType rawListing deleteOk now ttlMs).deletedCount, 0,
          (cleanupResourceType rawListing deleteOk now ttlMs).deletedCount⟩) ∧
    (∀ (imageListing : Except Unit (List CloudResource)) (deleteOk : CloudResource → Bool)
        (now ttlMs : Int),
      cleanupExpiredFiles imageListing (.error ()) deleteOk now ttlMs =
        ⟨(cleanupResourceType imageListing deleteOk now ttlMs).deletedCount,
          (cleanupResourceType imageListing deleteOk now ttlMs).deletedCount, 0⟩) := by
  refine ⟨cleanupResourceType_ok, ?_, ?_, ?_⟩
  · intro pre post r deleteOk now ttlMs hfail
    rw [cleanupResourceType_ok, cleanupResourceType_ok]
    dsimp only
    by_cases hexp : isExpired now r.created_at ttlMs = true
    · simp [List.filter_append, List.filter_cons, hexp, hfail]
    · simp only [Bool.not_eq_true] at hexp
      simp [List.filter_append, List.filter_cons, hexp]
  · intro rawListing deleteOk now ttlMs
    simp [cleanupExpiredFiles, cleanupResourceType]
  · intro imageListing deleteOk now ttlMs
    simp [cleanupExpiredFiles, cleanupResourceType]

/-- C6 witness: a deletion failure on the middle expired object does not
change what the rest of the sweep deletes. -/
theorem sweep_failures_are_local_witness :
    (cleanupResourceType (.ok ([⟨0, 0⟩] ++ (⟨1, 1⟩ : CloudResource) :: [⟨2, 2⟩]))
        (fun r => r.public_id != 1) 100 10).deletedCount =
      (cleanupResourceType (.ok ([⟨0, 0⟩] ++ [⟨2, 2⟩]))
        (fun r => r.public_id != 1) 100 10).deletedCount :=
  sweep_failures_are_local.2.1 [⟨0, 0⟩] [⟨2, 2⟩] ⟨1, 1⟩ (fun r => r.public_id != 1)
    100 10 (by decide)

/-- C8 counterexample: with 501 tagged objects in the store, the listing
returns only 500 — the caller does observe truncation to a single
provider page. -/
theorem getResourcesByTag_truncation_cex :
    ((List.range 501).map (fun i => (⟨i, 0⟩ : CloudResource))).length = 501 ∧
    (getResourcesByTag ((List.range 501).map (fun i => (⟨i, 0⟩ : CloudResource)))).length = 500 ∧
    getResourcesByTag ((List.range 501).map (fun i => (⟨i, 0⟩ : CloudResource))) ≠
      (List.range 501).map (fun i => (⟨i, 0⟩ : CloudResource)) := by
  refine ⟨by simp, by simp [getResourcesByTag, resources_by_tag], ?_⟩
  intro h
  have hlen := congrArg List.length h
  simp [getResourcesByTag, resources_by_tag] at hlen

/-- C8 amended: `getResourcesByTag` issues a single provider request with
`max_results: 500` and returns only the first provider page — at most 500
tagged objects, the leading segment of the store, with no internal cursor
pagination over the remainder. -/
theorem getResourcesByTag_single_provider_page (store : List CloudResource) :
    (getResourcesByTag store).length = min 500 store.length ∧
    ∃ rest, store = getResourcesByTag store ++ rest ∧ rest = store.drop 500 :=
  ⟨by simp [getResourcesByTag, resources_by_tag],
    ⟨store.drop 500, (List.take_append_drop 500 store).symm, rfl⟩⟩

/-- C9 counterexample: sweeping two tagged objects of one kind, one
expired (age 100 > ttl 10) and one fresh (age 5), deletes exactly the
older one, but deletion is attempted on 1 object, not 2 — and the
aggregate report carries no attempted count at all. -/
theorem sweep_report_attempts_cex :
    cleanupResourceType (.ok [⟨0, 0⟩, ⟨1, 95⟩]) (fun _ => true) 100 10 =
      ⟨1, [⟨0, 0⟩]⟩ ∧
    (cleanupResourceType (.ok [⟨0, 0⟩, ⟨1, 95⟩]) (fun _ => true) 100 10).attempts.length ≠ 2 := by
  constructor
  · decide
  · decide

/-- C9 amended: for two tagged objects of one kind, one past the TTL per
`isExpired` (`now - creationTime > ttl`) and one newer, the sweep deletes
exactly the older object and leaves the newer untouched; it reports
`deleted = 1`, and deletion is attempted only on that one expired object
(the report has no attempted count). -/
theorem sweep_two_objects_deletes_older (old fresh : CloudResource)
    (deleteOk : CloudResource → Bool) (now ttlMs : Int)
    (hold : isExpired now old.created_at ttlMs = true)
    (hfresh : isExpired now fresh.created_at ttlMs = false)
    (hdel : deleteOk old = true) :
    cleanupResourceType (.ok [old, fresh]) deleteOk now ttlMs = ⟨1, [old]⟩ := by
  rw [cleanupResourceType_ok]
  simp [List.filter_cons, hold, hfresh, hdel]

/-- C9 witness: the amended statement at the concrete pair of objects of
the counterexample. -/
theorem sweep_two_objects_deletes_older_witness :
    cleanupResourceType (.ok [(⟨0, 0⟩ : CloudResource), ⟨1, 95⟩]) (fun _ => true) 100 10 =
      ⟨1, [⟨0, 0⟩]⟩ :=
  sweep_two_objects_deletes_older ⟨0, 0⟩ ⟨1, 95⟩ (fun _ => true) 100 10
    (by decide) (by decide) rfl

/-- C10 counterexample: the two split implementations disagree on the
mixed comma/dash group `1-3,5` over a 10-page document — the server path
selects pages `[0,1,2,4]`, the serverless route selects none (it reads
the whole group as one dash range whose end bound `3,5` is `NaN`). -/
theorem split_paths_diverge_cex :
    (splitPdf ([0, 1, 2, 3, 4, 5, 6, 7, 8, 9] : List Nat) ("1-3,5".toList)).map
        (fun r => r.buffer) = [[0, 1, 2, 4]] ∧
    serverlessSplit ([0, 1, 2, 3, 4, 5, 6, 7, 8, 9] : List Nat) ("1-3,5".toList) =
      some [[]] ∧
    ([[0, 1, 2, 4]] : List (List Nat)) ≠ [[]] := by
  refine ⟨by decide, by decide, by decide⟩

/-- C10 amended: the serverless split route and the server-side
`parsePageRange`/`splitPdf` path are not equivalent in general (see the
counterexample); they do agree on a group that is a single in-bounds page
numeral, where both produce exactly one output document holding exactly
that page. -/
theorem split_paths_agree_on_single_page {α : Type} (doc : List α) (d : List Char) (n : Nat)
    (hd1 : d.contains '-' = false) (hd2 : d.contains ',' = false)
    (hd3 : d.contains ';' = false) (ht : trimChars d = d)
    (hp : jsParseInt d = some (n : Int)) (h1 : 1 ≤ n) (h2 : n ≤ doc.length) :
    serverlessSplit doc d = some ((splitPdf doc d).map (fun r => r.buffer)) ∧
    (splitPdf doc d).map (fun r => r.buffer) = [(doc.get? (n - 1)).toList] := by
  have hdnil : d ≠ [] := by
    intro h
    subst h
    simp [jsParseInt, parseUnsigned, isSpace] at hp
  have hsplit3 : splitOnChar ';' d = [d] := splitOnChar_of_not_contains ';' hd3
  have hsplit2 : splitOnChar ',' d = [d] := splitOnChar_of_not_contains ',' hd2
  have hidx : n - 1 < doc.length := by omega
  obtain ⟨p, hpage⟩ : ∃ p, doc.get? (n - 1) = some p :=
    ⟨_, List.get?_eq_get hidx⟩
  have hpageG : doc[n - 1]? = some p := by
    rw [← List.get?_eq_getElem?]
    exact hpage
  have hcast1 : (1 : Int) ≤ (n : Int) := by exact_mod_cast h1
  have hcast2 : (n : Int) ≤ (doc.length : Int) := by exact_mod_cast h2
  have htoNat : ((n : Int) - 1).toNat = n - 1 := by omega
  have hparse : parsePageRange d doc.length = [n - 1] := by
    unfold parsePageRange partsOf
    rw [hsplit2]
    simp only [List.map_cons, List.map_nil, ht, List.flatMap_cons, List.flatMap_nil]
    unfold atomIndices
    rw [hd1]
    simp only [Bool.false_eq_true, if_false, hp]
    rw [if_pos ⟨hcast1, hcast2⟩, htoNat]
    simp [addSet, List.insertionSort, List.orderedInsert]
  have hne : d.isEmpty = false := by
    cases d with
    | nil => exact absurd rfl hdnil
    | cons a t => rfl
  have hsplitPdf : splitPdf doc d = [⟨[p], d, 1⟩] := by
    simp only [splitPdf, splitGroups, hsplit3, List.map_cons, List.map_nil, ht,
      List.filter_cons, hne, Bool.not_false, if_true, List.filter_nil,
      List.filterMap_cons, List.filterMap_nil, hparse]
    simp [hpage, hpageG]
  have hnums : serverlessGroupNums d = [some ((n : Int) - 1)] := by
    unfold serverlessGroupNums
    rw [hd1]
    simp only [Bool.false_eq_true, if_false, hsplit2]
    simp [hp]
  have hcopy : copyPagesJs doc [some ((n : Int) - 1)] = some [p] := by
    unfold copyPagesJs
    rw [List.mapM_cons, List.mapM_nil]
    simp only [Option.some_bind]
    rw [if_pos (by omega : (0 : Int) ≤ (n : Int) - 1), htoNat, hpage]
    rfl
  have hserverless : serverlessSplit doc d = some [[p]] := by
    unfold serverlessSplit
    rw [hsplit3]
    simp only [List.map_cons, List.map_nil, ht]
    rw [List.mapM_cons, List.mapM_nil, hnums, hcopy]
    rfl
  constructor
  · rw [hserverless, hsplitPdf]
    rfl
  · rw [hsplitPdf, hpage]
    rfl

/-- C10 witness: both implementations give the single page 3 (value 30)
for the group `3` on a 5-page document. -/
theorem split_paths_agree_on_single_page_witness :
    serverlessSplit ([10, 20, 30, 40, 50] : List Nat) ("3".toList) =
      some ((splitPdf ([10, 20, 30, 40, 50] : List Nat) ("3".toList)).map
        (fun r => r.buffer)) :=
  (split_paths_agree_on_single_page [10, 20, 30, 40, 50] ("3".toList) 3
    (by decide) (by decide) (by decide) (by decide) (by decide)
    (by decide) (by decide)).1

end ImageTools
